import Mathlib

/-!
Shallow embedding of the `directories-rs` crate (files `src/lib.rs`, `src/lin.rs`):
XDG-style base-directory resolution on the X/Linux backend and the derivation of
project-scoped directory bundles.

Modelling conventions:
* Rust `PathBuf` / `String` values are modelled as Lean `String`s, manipulated at the
  level of their character lists (`String.data`).
* The process environment is a record `Env` of the environment variables the code
  reads (`XDG_CACHE_HOME`, `XDG_CONFIG_HOME`, `XDG_DATA_HOME`, `XDG_BIN_HOME`,
  `XDG_RUNTIME_DIR`) together with the result of `std::env::home_dir()`; a field is
  `none` when the variable is unset (Rust `env::var` returning `Err`).
* A Rust panic (`Option::unwrap` on `None`, or an arithmetic underflow) is modelled
  by the function returning `none` of an outer `Option`.
* Unicode-sensitive character predicates (`char::is_whitespace`,
  `str::to_lowercase`) are modelled faithfully on the fragment the code and spec
  exercise: `rustIsWhitespace` lists the full Unicode `White_Space` set, while
  lowercasing is modelled on its ASCII fragment (`Char.toLower`).
-/

namespace DirectoriesRs

/-- The Unicode `White_Space` property, as decided by Rust's `char::is_whitespace`. -/
def rustIsWhitespace (c : Char) : Bool :=
  c.toNat ∈ [0x09, 0x0A, 0x0B, 0x0C, 0x0D, 0x20, 0x85, 0xA0, 0x1680,
    0x2000, 0x2001, 0x2002, 0x2003, 0x2004, 0x2005, 0x2006, 0x2007, 0x2008, 0x2009, 0x200A,
    0x2028, 0x2029, 0x202F, 0x205F, 0x3000]

/-- Models `Path::is_absolute` on the Unix backend: the path begins with the root separator. -/
def isAbsoluteStr (s : String) : Bool :=
  match s.data with
  | '/' :: _ => true
  | _ => false

/-- Models `lin.rs::is_absolute_path`: wrap the string in a path and keep it only when absolute. -/
def is_absolute_path (path : String) : Option String :=
  if isAbsoluteStr path then some path else none

/-- Models `PathBuf::push`/`join` on the Unix backend, on character lists: an absolute
argument replaces the path, otherwise a `/` separator is inserted when needed. -/
def joinChars (p s : List Char) : List Char :=
  match s with
  | '/' :: _ => s
  | _ =>
    if p = [] then s
    else if p.getLast? = some '/' then p ++ s
    else p ++ '/' :: s

/-- Models `PathBuf::join` on strings. -/
def pathJoin (p s : String) : String :=
  ⟨joinChars p.data s.data⟩

/-- Models `PathBuf::pop`: drop the final path component (for paths without a trailing
separator, which is the only shape this crate pops). `/a/b ↦ /a`, `/a ↦ /`,
`a ↦ ""`, and the rootless/empty paths are left unchanged as in Rust. -/
def popChars (p : List Char) : List Char :=
  match p.reverse.dropWhile (fun c => c ≠ '/') with
  | [] => []
  | ['/'] => ['/']
  | _ :: rest => rest.reverse

/-- Models `PathBuf::pop` on strings. -/
def pathPop (p : String) : String :=
  ⟨popChars p.data⟩

/-- The environment state read by the X/Linux backend: the five XDG override
variables (`none` = unset) and the result of `std::env::home_dir()`. -/
structure Env where
  xdg_cache_home : Option String
  xdg_config_home : Option String
  xdg_data_home : Option String
  xdg_bin_home : Option String
  xdg_runtime_dir : Option String
  home : Option String
deriving DecidableEq, Repr

/-- Replace the `XDG_CACHE_HOME` entry of an environment. -/
def setCacheHome (e : Env) (v : Option String) : Env :=
  ⟨v, e.xdg_config_home, e.xdg_data_home, e.xdg_bin_home, e.xdg_runtime_dir, e.home⟩

/-- Replace the `XDG_CONFIG_HOME` entry of an environment. -/
def setConfigHome (e : Env) (v : Option String) : Env :=
  ⟨e.xdg_cache_home, v, e.xdg_data_home, e.xdg_bin_home, e.xdg_runtime_dir, e.home⟩

/-- Replace the `XDG_DATA_HOME` entry of an environment. -/
def setDataHome (e : Env) (v : Option String) : Env :=
  ⟨e.xdg_cache_home, e.xdg_config_home, v, e.xdg_bin_home, e.xdg_runtime_dir, e.home⟩

/-- Replace the `XDG_BIN_HOME` entry of an environment. -/
def setBinHome (e : Env) (v : Option String) : Env :=
  ⟨e.xdg_cache_home, e.xdg_config_home, e.xdg_data_home, v, e.xdg_runtime_dir, e.home⟩

/-- Replace the `XDG_RUNTIME_DIR` entry of an environment. -/
def setRuntimeDir (e : Env) (v : Option String) : Env :=
  ⟨e.xdg_cache_home, e.xdg_config_home, e.xdg_data_home, e.xdg_bin_home, v, e.home⟩

/-- Models `OsBackend::home_dir` before the `unwrap`: `none` models the panic source. -/
def home_dir (e : Env) : Option String :=
  e.home

/-- Models `OsBackend::cache_dir`. The outer `Option` models the panic of
`env::home_dir().unwrap()`, which Rust evaluates eagerly inside `unwrap_or`
even when the override is taken. -/
def cache_dir (e : Env) : Option String :=
  (home_dir e).map fun h =>
    (e.xdg_cache_home.bind is_absolute_path).getD (pathJoin h ".cache")

/-- Models `OsBackend::config_dir` (outer `Option` as in `cache_dir`). -/
def config_dir (e : Env) : Option String :=
  (home_dir e).map fun h =>
    (e.xdg_config_home.bind is_absolute_path).getD (pathJoin h ".config")

/-- Models `OsBackend::data_roaming_dir` (outer `Option` as in `cache_dir`). -/
def data_roaming_dir (e : Env) : Option String :=
  (home_dir e).map fun h =>
    (e.xdg_data_home.bind is_absolute_path).getD (pathJoin h ".local/share")

/-- Models `OsBackend::data_dir` (outer `Option` as in `cache_dir`). -/
def data_dir (e : Env) : Option String :=
  (home_dir e).map fun h =>
    (e.xdg_data_home.bind is_absolute_path).getD (pathJoin h ".local/share")

/-- Models `OsBackend::executable_dir`. In Rust this always returns `Some` on this
backend; the outer `Option` here models only the `home_dir` panic reachable
through the `data_dir()` call in the fallback. -/
def executable_dir (e : Env) : Option String :=
  (data_dir e).map fun d =>
    (e.xdg_bin_home.bind is_absolute_path).getD (pathJoin (pathPop d) "bin")

/-- Models `OsBackend::runtime_dir`: `none` here is the ordinary API answer "no runtime
directory", not a failure. -/
def runtime_dir (e : Env) : Option String :=
  e.xdg_runtime_dir.bind is_absolute_path

/-- Models `lin.rs::run_xdg_user_dir_command`, as a function of the helper process's
stdout (bytes modelled as characters). Rust truncates to `out.len() - 1` in
`usize`: on empty output the subtraction underflows (a panic), modelled by
`none`; otherwise exactly the last byte is dropped. -/
def run_xdg_user_dir_command (stdout : String) : Option String :=
  if stdout.data.length = 0 then none
  else some ⟨stdout.data.take (stdout.data.length - 1)⟩

/-- Models `str::split_whitespace` on character lists: `acc` holds the current word,
reversed. Words are the maximal runs of non-whitespace characters. -/
def splitWhitespaceAux : List Char → List Char → List (List Char)
  | [], acc => if acc = [] then [] else [acc.reverse]
  | c :: cs, acc =>
    if rustIsWhitespace c then
      if acc = [] then splitWhitespaceAux cs []
      else acc.reverse :: splitWhitespaceAux cs []
    else splitWhitespaceAux cs (c :: acc)

/-- Models `str::split_whitespace` on strings. -/
def splitWhitespace (s : String) : List (List Char) :=
  splitWhitespaceAux s.data []

/-- The loop body of `trim_and_replace_spaces_with_hyphens_then_lowercase`:
push each part, inserting `-` whenever a further part follows. -/
def joinParts : List (List Char) → List Char
  | [] => []
  | [p] => p
  | p :: q :: ps => p ++ '-' :: joinParts (q :: ps)

/-- Models `str::to_lowercase`, modelled on its ASCII fragment (per character). -/
def lowercaseChars (cs : List Char) : List Char :=
  cs.map Char.toLower

/-- Models `lin.rs::trim_and_replace_spaces_with_hyphens_then_lowercase`: split on
whitespace, lowercase each part, join the parts with single hyphens. -/
def trim_and_replace_spaces_with_hyphens_then_lowercase (name : String) : String :=
  ⟨joinParts ((splitWhitespace name).map lowercaseChars)⟩

/-- Models `lib.rs::strip_qualification`: `name.rfind('.')` keeps the substring after
the last `.` when one exists, the whole string otherwise; equivalently the
longest dot-free suffix. -/
def stripQualChars (cs : List Char) : List Char :=
  (cs.reverse.takeWhile (fun c => c ≠ '.')).reverse

/-- Models `lib.rs::strip_qualification` on strings. -/
def strip_qualification (name : String) : String :=
  ⟨stripQualChars name.data⟩

/-- Models `str::trim`: strip leading and trailing whitespace. -/
def trimChars (cs : List Char) : List Char :=
  ((cs.dropWhile rustIsWhitespace).reverse.dropWhile rustIsWhitespace).reverse

/-- Models `str::trim` on strings. -/
def strTrim (s : String) : String :=
  ⟨trimChars s.data⟩

/-- Models `str::to_lowercase` on strings (ASCII fragment). -/
def strToLowercase (s : String) : String :=
  ⟨lowercaseChars s.data⟩

/-- Models `lib.rs::ProjectDirectories`: the project-scoped directory bundle. -/
structure ProjectDirectories where
  project_name : String
  project_cache_dir : String
  project_config_dir : String
  project_data_dir : String
  project_data_local_dir : String
  project_runtime_dir : Option String
deriving DecidableEq, Repr

/-- Models `lin.rs::ProjectDirectories::from_unprocessed_string`. `none` models the two
panics: `env::home_dir().unwrap()` when no home exists, and the `.unwrap()` on
the `XDG_RUNTIME_DIR` lookup when that variable is unset or not absolute. -/
def from_unprocessed_string (e : Env) (value : String) : Option ProjectDirectories :=
  match e.home with
  | none => none
  | some hd =>
    let project_cache_dir :=
      pathJoin ((e.xdg_cache_home.bind is_absolute_path).getD (pathJoin hd ".cache")) value
    let project_config_dir :=
      pathJoin ((e.xdg_config_home.bind is_absolute_path).getD (pathJoin hd ".config")) value
    let project_data_dir :=
      pathJoin ((e.xdg_data_home.bind is_absolute_path).getD (pathJoin hd ".local/share")) value
    match e.xdg_runtime_dir.bind is_absolute_path with
    | none => none
    | some r =>
      some ⟨value, project_cache_dir, project_config_dir, project_data_dir,
        project_data_dir, some (pathJoin r value)⟩

/-- Models `lin.rs::ProjectDirectories::from_project_name`. -/
def from_project_name (e : Env) (project_name : String) : Option ProjectDirectories :=
  from_unprocessed_string e (trim_and_replace_spaces_with_hyphens_then_lowercase project_name)

/-- Models `lin.rs::ProjectDirectories::from_qualified_project_name`. -/
def from_qualified_project_name (e : Env) (qualified_project_name : String) : Option ProjectDirectories :=
  from_unprocessed_string e (strTrim (strToLowercase (strip_qualification qualified_project_name)))

/-- Holds when `p` ends with `seg` as its final path segment: either `p` is `seg` itself
(the case where an absolute segment replaced the base on join), or `p` ends in
`/` followed by `seg`. -/
def endsWithSegment (p seg : String) : Bool :=
  p == seg || ('/' :: seg.data).isSuffixOf p.data

/-- Decides whether a character is an ASCII uppercase letter, the fragment of
Rust's `char::is_uppercase` relevant to the normalization routine. -/
def isUpperAlpha (c : Char) : Bool :=
  decide (65 ≤ c.toNat) && decide (c.toNat ≤ 90)

/-! ### Supporting lemmas -/

theorem isSuffixOf_of_suffix {l₁ l₂ : List Char} (h : l₁ <:+ l₂) :
    l₁.isSuffixOf l₂ = true := by
  simp [List.isSuffixOf, List.isPrefixOf_iff_prefix, List.reverse_prefix, h]

theorem toLower_not_upperAlpha (c : Char) : isUpperAlpha (Char.toLower c) = false := by
  simp only [Char.toLower]
  split
  · next h =>
    obtain ⟨h1, h2⟩ := h
    set n := c.toNat with hn
    clear_value n
    interval_cases n <;> decide
  · next h =>
    simp only [isUpperAlpha]
    rw [Bool.and_eq_false_iff]
    by_cases h1 : 65 ≤ c.toNat
    · right; simp; omega
    · left; simp; omega

theorem toLower_not_ws (c : Char) (h : rustIsWhitespace c = false) :
    rustIsWhitespace (Char.toLower c) = false := by
  simp only [Char.toLower]
  split
  · next hc =>
    obtain ⟨h1, h2⟩ := hc
    set n := c.toNat with hn
    clear_value n
    interval_cases n <;> decide
  · exact h

theorem splitWhitespaceAux_no_ws :
    ∀ (cs acc : List Char), (∀ c ∈ acc, rustIsWhitespace c = false) →
      ∀ part ∈ splitWhitespaceAux cs acc, ∀ c ∈ part, rustIsWhitespace c = false := by
  intro cs
  induction cs with
  | nil =>
    intro acc hacc part hpart
    simp only [splitWhitespaceAux] at hpart
    split at hpart
    · simp at hpart
    · simp only [List.mem_singleton] at hpart
      subst hpart
      intro c hc
      exact hacc c (List.mem_reverse.mp hc)
  | cons d ds ih =>
    intro acc hacc part hpart
    simp only [splitWhitespaceAux] at hpart
    split at hpart
    · split at hpart
      · exact ih [] (by simp) part hpart
      · rcases List.mem_cons.mp hpart with h | h
        · subst h
          intro c hc
          exact hacc c (List.mem_reverse.mp hc)
        · exact ih [] (by simp) part h
    · next hd =>
      refine ih (d :: acc) ?_ part hpart
      intro c hc
      rcases List.mem_cons.mp hc with rfl | h
      · simpa using hd
      · exact hacc c h

theorem joinParts_mem {P : Char → Prop} :
    ∀ (parts : List (List Char)), (∀ part ∈ parts, ∀ c ∈ part, P c) → P '-' →
      ∀ c ∈ joinParts parts, P c := by
  intro parts
  induction parts with
  | nil =>
    intro _ _ c hc
    simp [joinParts] at hc
  | cons p ps ih =>
    intro hparts hhyph c hc
    cases ps with
    | nil =>
      simp only [joinParts] at hc
      exact hparts p (by simp) c hc
    | cons q qs =>
      simp only [joinParts] at hc
      rcases List.mem_append.mp hc with h | h
      · exact hparts p (by simp) c h
      · rcases List.mem_cons.mp h with rfl | h
        · exact hhyph
        · exact ih (fun part hp => hparts part (List.mem_cons_of_mem _ hp)) hhyph c h

theorem splitWhitespaceAux_trailing (w : Char) (hw : rustIsWhitespace w = true) :
    ∀ (cs acc : List Char), splitWhitespaceAux (cs ++ [w]) acc = splitWhitespaceAux cs acc := by
  intro cs
  induction cs with
  | nil =>
    intro acc
    simp only [List.nil_append, splitWhitespaceAux, hw, if_true]
  | cons d ds ih =>
    intro acc
    simp only [List.cons_append, splitWhitespaceAux]
    split
    · split
      · exact ih []
      · exact congrArg _ (ih [])
    · exact ih (d :: acc)

theorem splitWhitespaceAux_collapse (w w' : Char) (hw : rustIsWhitespace w = true)
    (hw' : rustIsWhitespace w' = true) :
    ∀ (a b acc : List Char),
      splitWhitespaceAux (a ++ w :: w' :: b) acc = splitWhitespaceAux (a ++ w :: b) acc := by
  intro a
  induction a with
  | nil =>
    intro b acc
    simp only [List.nil_append, splitWhitespaceAux, hw, hw', if_true]
  | cons d ds ih =>
    intro b acc
    simp only [List.cons_append, splitWhitespaceAux]
    split
    · split
      · exact ih b []
      · exact congrArg _ (ih b [])
    · exact ih b (d :: acc)

theorem splitWhitespaceAux_all_ws :
    ∀ (cs : List Char), (∀ c ∈ cs, rustIsWhitespace c = true) →
      splitWhitespaceAux cs [] = [] := by
  intro cs
  induction cs with
  | nil => intro _; rfl
  | cons d ds ih =>
    intro h
    have hd : rustIsWhitespace d = true := h d (by simp)
    simp only [splitWhitespaceAux, hd, if_true, if_pos rfl]
    exact ih fun c hc => h c (List.mem_cons_of_mem _ hc)

theorem from_unprocessed_string_eq_some {e : Env} {v : String} {pd : ProjectDirectories}
    (h : from_unprocessed_string e v = some pd) :
    ∃ hd r, e.home = some hd ∧ e.xdg_runtime_dir.bind is_absolute_path = some r ∧
      pd = ⟨v,
        pathJoin ((e.xdg_cache_home.bind is_absolute_path).getD (pathJoin hd ".cache")) v,
        pathJoin ((e.xdg_config_home.bind is_absolute_path).getD (pathJoin hd ".config")) v,
        pathJoin ((e.xdg_data_home.bind is_absolute_path).getD (pathJoin hd ".local/share")) v,
        pathJoin ((e.xdg_data_home.bind is_absolute_path).getD (pathJoin hd ".local/share")) v,
        some (pathJoin r v)⟩ := by
  unfold from_unprocessed_string at h
  split at h
  · exact absurd h (by simp)
  · next hd hhome =>
    split at h
    · exact absurd h (by simp)
    · next r hr =>
      simp only [Option.some.injEq] at h
      exact ⟨hd, r, hhome, hr, h.symm⟩

theorem from_unprocessed_string_eq {e : Env} {hd r : String}
    (hhome : e.home = some hd) (hr : e.xdg_runtime_dir.bind is_absolute_path = some r)
    (v : String) :
    from_unprocessed_string e v = some ⟨v,
      pathJoin ((e.xdg_cache_home.bind is_absolute_path).getD (pathJoin hd ".cache")) v,
      pathJoin ((e.xdg_config_home.bind is_absolute_path).getD (pathJoin hd ".config")) v,
      pathJoin ((e.xdg_data_home.bind is_absolute_path).getD (pathJoin hd ".local/share")) v,
      pathJoin ((e.xdg_data_home.bind is_absolute_path).getD (pathJoin hd ".local/share")) v,
      some (pathJoin r v)⟩ := by
  unfold from_unprocessed_string
  rw [hhome, hr]


/-! ### Claim theorems -/

/-- C3: the free-form name normalization trims leading and trailing whitespace,
collapses every run of internal whitespace into a single hyphen, and lowercases,
leaving other internal characters (such as existing hyphens) unchanged; in
particular on `"Bar App"`, `" Bar App "`, `"  Bar  App  "` and `"BarApp-Foo"`
it yields `"bar-app"`, `"bar-app"`, `"bar-app"` and `"barapp-foo"`. The general
clauses state invariance under adding leading or trailing whitespace and under
shortening any internal whitespace run. -/
theorem normalize_trims_collapses_lowercases :
    (trim_and_replace_spaces_with_hyphens_then_lowercase "Bar App" = "bar-app") ∧
    (trim_and_replace_spaces_with_hyphens_then_lowercase " Bar App " = "bar-app") ∧
    (trim_and_replace_spaces_with_hyphens_then_lowercase "  Bar  App  " = "bar-app") ∧
    (trim_and_replace_spaces_with_hyphens_then_lowercase "BarApp-Foo" = "barapp-foo") ∧
    (∀ (s : String) (w : Char), rustIsWhitespace w = true →
      trim_and_replace_spaces_with_hyphens_then_lowercase ⟨w :: s.data⟩ =
        trim_and_replace_spaces_with_hyphens_then_lowercase s ∧
      trim_and_replace_spaces_with_hyphens_then_lowercase ⟨s.data ++ [w]⟩ =
        trim_and_replace_spaces_with_hyphens_then_lowercase s) ∧
    (∀ (a b : List Char) (w w' : Char),
      rustIsWhitespace w = true → rustIsWhitespace w' = true →
      trim_and_replace_spaces_with_hyphens_then_lowercase ⟨a ++ w :: w' :: b⟩ =
        trim_and_replace_spaces_with_hyphens_then_lowercase ⟨a ++ w :: b⟩) := by
  refine ⟨by decide, by decide, by decide, by decide, ?_, ?_⟩
  · intro s w hw
    constructor
    · simp only [trim_and_replace_spaces_with_hyphens_then_lowercase, splitWhitespace]
      have : splitWhitespaceAux (w :: s.data) [] = splitWhitespaceAux s.data [] := by
        simp [splitWhitespaceAux, hw]
      rw [this]
    · simp only [trim_and_replace_spaces_with_hyphens_then_lowercase, splitWhitespace]
      rw [splitWhitespaceAux_trailing w hw]
  · intro a b w w' hw hw'
    simp only [trim_and_replace_spaces_with_hyphens_then_lowercase, splitWhitespace]
    rw [splitWhitespaceAux_collapse w w' hw hw']

/-- Witness for C3: the invariance clauses applied at concrete inputs. -/
theorem normalize_trims_collapses_lowercases_witness :
    trim_and_replace_spaces_with_hyphens_then_lowercase ⟨' ' :: "Bar App".data⟩ =
      trim_and_replace_spaces_with_hyphens_then_lowercase "Bar App" :=
  (normalize_trims_collapses_lowercases.2.2.2.2.1 "Bar App" ' ' (by decide)).1

/-- C4: for every input string, the free-form name normalization produces a
string with no whitespace characters and no uppercase alphabetic characters. -/
theorem normalize_no_ws_no_upper (s : String) (c : Char)
    (hc : c ∈ (trim_and_replace_spaces_with_hyphens_then_lowercase s).data) :
    rustIsWhitespace c = false ∧ isUpperAlpha c = false := by
  have hmem : c ∈ joinParts ((splitWhitespaceAux s.data []).map lowercaseChars) := hc
  refine @joinParts_mem (fun c => rustIsWhitespace c = false ∧ isUpperAlpha c = false)
    _ ?_ (by decide) c hmem
  intro part hpart d hd
  rcases List.mem_map.mp hpart with ⟨part0, hp0, hpeq⟩
  subst hpeq
  rcases List.mem_map.mp hd with ⟨d0, hd0, hdeq⟩
  subst hdeq
  have hws := splitWhitespaceAux_no_ws s.data [] (by simp) part0 hp0 d0 hd0
  exact ⟨toLower_not_ws d0 hws, toLower_not_upperAlpha d0⟩

/-- Witness for C4: applied to the input `"A b"` and the output character `a`. -/
theorem normalize_no_ws_no_upper_witness :
    rustIsWhitespace 'a' = false ∧ isUpperAlpha 'a' = false :=
  normalize_no_ws_no_upper "A b" 'a' (by decide)

/-- C5: `strip_qualification` keeps only the substring after the last `.` and is
the identity when the input contains no `.`; `from_qualified_project_name` then
lowercases and trims that segment to form the bundle's project name. -/
theorem strip_qualification_spec :
    (strip_qualification "org.foo.BarApp" = "BarApp") ∧
    (strip_qualification "BarApp" = "BarApp") ∧
    (∀ s : String, '.' ∉ s.data → strip_qualification s = s) ∧
    (∀ (e : Env) (q : String) (pd : ProjectDirectories),
      from_qualified_project_name e q = some pd →
      pd.project_name = strTrim (strToLowercase (strip_qualification q))) := by
  refine ⟨by decide, by decide, ?_, ?_⟩
  · intro s hdot
    show (⟨stripQualChars s.data⟩ : String) = s
    have hall : stripQualChars s.data = s.data := by
      unfold stripQualChars
      rw [List.takeWhile_eq_self_iff.mpr, List.reverse_reverse]
      intro c hcrev
      have hmem : c ∈ s.data := List.mem_reverse.mp hcrev
      simp only [ne_eq, decide_eq_true_eq]
      rintro rfl
      exact hdot hmem
    rw [hall]
  · intro e q pd h
    obtain ⟨hd, r, _, _, hpd⟩ := from_unprocessed_string_eq_some h
    subst hpd
    rfl

/-- Witness for C5: the identity clause at a dot-free string, and the
project-name clause at a concrete environment and qualified name. -/
theorem strip_qualification_spec_witness :
    (strip_qualification "BarApp2" = "BarApp2") ∧
    ∀ (pd : ProjectDirectories),
      from_qualified_project_name
        ⟨none, none, none, none, some "/run/user/1000", some "/home/eve"⟩
        "org.foo.BarApp" = some pd →
      pd.project_name = strTrim (strToLowercase (strip_qualification "org.foo.BarApp")) :=
  ⟨strip_qualification_spec.2.2.1 "BarApp2" (by decide),
   fun pd h => strip_qualification_spec.2.2.2
     ⟨none, none, none, none, some "/run/user/1000", some "/home/eve"⟩ "org.foo.BarApp" pd h⟩

theorem endsWithSegment_pathJoin (b v : String) :
    endsWithSegment (pathJoin b v) v = true := by
  unfold pathJoin joinChars
  split
  · next hv =>
    show endsWithSegment (⟨v.data⟩ : String) v = true
    simp [endsWithSegment]
  · by_cases hb : b.data = []
    · rw [if_pos hb]
      show endsWithSegment (⟨v.data⟩ : String) v = true
      simp [endsWithSegment]
    · rw [if_neg hb]
      by_cases hlast : b.data.getLast? = some '/'
      · rw [if_pos hlast]
        have hsplit : ∃ t, b.data = t ++ ['/'] := by
          rw [List.getLast?_eq_head?_reverse] at hlast
          cases hrev : b.data.reverse with
          | nil => rw [hrev] at hlast; simp at hlast
          | cons a t =>
            rw [hrev] at hlast
            simp only [List.head?_cons, Option.some.injEq] at hlast
            subst hlast
            refine ⟨t.reverse, ?_⟩
            have hbb := congrArg List.reverse hrev
            simpa using hbb
        obtain ⟨t, ht⟩ := hsplit
        unfold endsWithSegment
        rw [Bool.or_eq_true]
        right
        apply isSuffixOf_of_suffix
        show ('/' :: v.data) <:+ (⟨b.data ++ v.data⟩ : String).data
        refine ⟨t, ?_⟩
        rw [ht]
        simp
      · rw [if_neg hlast]
        unfold endsWithSegment
        rw [Bool.or_eq_true]
        right
        apply isSuffixOf_of_suffix
        exact ⟨b.data, rfl⟩

/-- C7: every constructed project bundle has `cache_dir`, `config_dir` and
`data_dir` ending with the bundle's `project_name` as final path segment. -/
theorem bundle_dirs_end_with_project_name (e : Env) (v : String)
    (pd : ProjectDirectories) (h : from_unprocessed_string e v = some pd) :
    endsWithSegment pd.project_cache_dir pd.project_name = true ∧
    endsWithSegment pd.project_config_dir pd.project_name = true ∧
    endsWithSegment pd.project_data_dir pd.project_name = true := by
  obtain ⟨hd, r, _, _, hpd⟩ := from_unprocessed_string_eq_some h
  subst hpd
  exact ⟨endsWithSegment_pathJoin _ _, endsWithSegment_pathJoin _ _,
    endsWithSegment_pathJoin _ _⟩

/-- Witness for C7: the invariant at a concrete environment and project name. -/
theorem bundle_dirs_end_with_project_name_witness :
    ∃ pd, from_unprocessed_string
        ⟨some "/c", none, none, none, some "/run/user/1000", some "/home/eve"⟩
        "my-app" = some pd ∧
      endsWithSegment pd.project_cache_dir pd.project_name = true ∧
      endsWithSegment pd.project_config_dir pd.project_name = true ∧
      endsWithSegment pd.project_data_dir pd.project_name = true :=
  ⟨⟨"my-app", "/c/my-app", "/home/eve/.config/my-app", "/home/eve/.local/share/my-app",
      "/home/eve/.local/share/my-app", some ("/run/user/1000/my-app")⟩,
    by decide,
    bundle_dirs_end_with_project_name
      ⟨some "/c", none, none, none, some "/run/user/1000", some "/home/eve"⟩
      "my-app" _ (by decide)⟩

/-- C10: the user-folder helper invocation always removes exactly the last byte
of the helper's output: newline-terminated output loses exactly the newline,
output not ending in a newline loses its genuine final character, and empty
output makes the `usize` length subtraction underflow (the function is total
only on non-empty output). -/
theorem helper_output_truncation :
    (∀ s : String, s.data ≠ [] →
      run_xdg_user_dir_command s = some ⟨s.data.dropLast⟩) ∧
    (∀ s : String, run_xdg_user_dir_command (s ++ "\n") = some s) ∧
    (run_xdg_user_dir_command "/home/eve/Music" = some "/home/eve/Musi") ∧
    (run_xdg_user_dir_command "" = none) := by
  have hgen : ∀ s : String, s.data ≠ [] →
      run_xdg_user_dir_command s = some ⟨s.data.dropLast⟩ := by
    intro s hs
    unfold run_xdg_user_dir_command
    rw [if_neg (fun h => hs (List.length_eq_zero.mp h))]
    rw [← List.dropLast_eq_take]
  refine ⟨hgen, ?_, by decide, by decide⟩
  intro s
  have hdata : (s ++ "\n").data = s.data ++ ['\n'] := by
    rw [String.data_append]
  have hne : (s ++ "\n").data ≠ [] := by
    rw [hdata]
    simp
  rw [hgen _ hne, hdata, List.dropLast_concat]

/-- Witness for C10: the truncation clauses applied at concrete helper outputs. -/
theorem helper_output_truncation_witness :
    run_xdg_user_dir_command "ab" = some ⟨"ab".data.dropLast⟩ :=
  helper_output_truncation.1 "ab" (by decide)

theorem pathJoin_not_absolute {p s : String} (hp : p.data ≠ [])
    (hlast : p.data.getLast? ≠ some '/') (hs : isAbsoluteStr s = false) :
    pathJoin p s = ⟨p.data ++ '/' :: s.data⟩ := by
  unfold pathJoin joinChars
  split
  · next heq => simp [isAbsoluteStr, heq] at hs
  · rw [if_neg hp, if_neg hlast]

/-- C1: for each XDG override variable consulted during resolution, an absolute
value is returned verbatim as the resolved base (and, for bundles, with the
project name appended), while a relative or empty value makes resolution behave
exactly as if the variable were unset. -/
theorem xdg_override_resolution (e : Env) (hd va vr : String)
    (hhome : e.home = some hd)
    (hva : isAbsoluteStr va = true)
    (hvr : isAbsoluteStr vr = false) :
    (cache_dir (setCacheHome e (some va)) = some va) ∧
    (config_dir (setConfigHome e (some va)) = some va) ∧
    (data_dir (setDataHome e (some va)) = some va) ∧
    (executable_dir (setBinHome e (some va)) = some va) ∧
    (runtime_dir (setRuntimeDir e (some va)) = some va) ∧
    (cache_dir (setCacheHome e (some vr)) = cache_dir (setCacheHome e none)) ∧
    (config_dir (setConfigHome e (some vr)) = config_dir (setConfigHome e none)) ∧
    (data_dir (setDataHome e (some vr)) = data_dir (setDataHome e none)) ∧
    (executable_dir (setBinHome e (some vr)) = executable_dir (setBinHome e none)) ∧
    (runtime_dir (setRuntimeDir e (some vr)) = runtime_dir (setRuntimeDir e none)) ∧
    (∀ (n : String) (pd : ProjectDirectories),
      from_unprocessed_string (setCacheHome e (some va)) n = some pd →
      pd.project_cache_dir = pathJoin va n) ∧
    (∀ (n : String) (pd : ProjectDirectories),
      from_unprocessed_string (setConfigHome e (some va)) n = some pd →
      pd.project_config_dir = pathJoin va n) ∧
    (∀ (n : String) (pd : ProjectDirectories),
      from_unprocessed_string (setDataHome e (some va)) n = some pd →
      pd.project_data_dir = pathJoin va n) ∧
    (∀ (n : String) (pd : ProjectDirectories),
      from_unprocessed_string (setRuntimeDir e (some va)) n = some pd →
      pd.project_runtime_dir = some (pathJoin va n)) ∧
    (∀ n : String, from_unprocessed_string (setCacheHome e (some vr)) n =
      from_unprocessed_string (setCacheHome e none) n) ∧
    (∀ n : String, from_unprocessed_string (setConfigHome e (some vr)) n =
      from_unprocessed_string (setConfigHome e none) n) ∧
    (∀ n : String, from_unprocessed_string (setDataHome e (some vr)) n =
      from_unprocessed_string (setDataHome e none) n) ∧
    (∀ n : String, from_unprocessed_string (setRuntimeDir e (some vr)) n =
      from_unprocessed_string (setRuntimeDir e none) n) := by
  have habs : is_absolute_path va = some va := by simp [is_absolute_path, hva]
  have hrel : is_absolute_path vr = none := by simp [is_absolute_path, hvr]
  refine ⟨?_, ?_, ?_, ?_, ?_, ?_, ?_, ?_, ?_, ?_, ?_, ?_, ?_, ?_, ?_, ?_, ?_, ?_⟩
  · simp [cache_dir, home_dir, setCacheHome, hhome, habs]
  · simp [config_dir, home_dir, setConfigHome, hhome, habs]
  · simp [data_dir, home_dir, setDataHome, hhome, habs]
  · simp [executable_dir, data_dir, home_dir, setBinHome, hhome, habs]
  · simp [runtime_dir, setRuntimeDir, habs]
  · simp [cache_dir, home_dir, setCacheHome, hrel]
  · simp [config_dir, home_dir, setConfigHome, hrel]
  · simp [data_dir, home_dir, setDataHome, hrel]
  · simp [executable_dir, data_dir, home_dir, setBinHome, hrel]
  · simp [runtime_dir, setRuntimeDir, hrel]
  · intro n pd h
    obtain ⟨hd', r, _, _, hpd⟩ := from_unprocessed_string_eq_some h
    subst hpd
    simp [setCacheHome, habs]
  · intro n pd h
    obtain ⟨hd', r, _, _, hpd⟩ := from_unprocessed_string_eq_some h
    subst hpd
    simp [setConfigHome, habs]
  · intro n pd h
    obtain ⟨hd', r, _, _, hpd⟩ := from_unprocessed_string_eq_some h
    subst hpd
    simp [setDataHome, habs]
  · intro n pd h
    obtain ⟨hd', r, _, hr, hpd⟩ := from_unprocessed_string_eq_some h
    subst hpd
    simp only [setRuntimeDir, Option.some_bind] at hr
    rw [habs] at hr
    simp only [Option.some.injEq] at hr
    subst hr
    rfl
  · intro n
    simp [from_unprocessed_string, setCacheHome, hrel]
  · intro n
    simp [from_unprocessed_string, setConfigHome, hrel]
  · intro n
    simp [from_unprocessed_string, setDataHome, hrel]
  · intro n
    simp [from_unprocessed_string, setRuntimeDir, hrel]

/-- Witness for C1: the verbatim clause at a concrete environment and values. -/
theorem xdg_override_resolution_witness :
    cache_dir (setCacheHome ⟨none, none, none, none, none, some "/home/eve"⟩
      (some "/abs")) = some "/abs" :=
  (xdg_override_resolution ⟨none, none, none, none, none, some "/home/eve"⟩
    "/home/eve" "/abs" "rel" rfl (by decide) (by decide)).1

/-- C2: with `XDG_CONFIG_HOME=/custom/config` (absolute) and
`XDG_CACHE_HOME=relcache` (relative, hence invalid), `from_project_name "My App"`
yields a bundle with `config_dir = /custom/config/my-app` and
`cache_dir = <home>/.cache/my-app`. The home and runtime hypotheses discharge
the `unwrap`s the Rust constructor performs on the way. -/
theorem end_to_end_scenario (e : Env) (hd r : String)
    (hcfg : e.xdg_config_home = some "/custom/config")
    (hcache : e.xdg_cache_home = some "relcache")
    (hhome : e.home = some hd)
    (hr : e.xdg_runtime_dir.bind is_absolute_path = some r)
    (hd_ne : hd.data ≠ [])
    (hd_last : hd.data.getLast? ≠ some '/') :
    ∃ pd, from_project_name e "My App" = some pd ∧
      pd.project_config_dir = "/custom/config/my-app" ∧
      pd.project_cache_dir = hd ++ "/.cache/my-app" := by
  have hnorm : trim_and_replace_spaces_with_hyphens_then_lowercase "My App" = "my-app" := by
    decide
  have hcfgbase :
      (e.xdg_config_home.bind is_absolute_path).getD (pathJoin hd ".config") =
        "/custom/config" := by
    have h1 : is_absolute_path "/custom/config" = some "/custom/config" := by decide
    simp [hcfg, h1]
  have hcbase :
      (e.xdg_cache_home.bind is_absolute_path).getD (pathJoin hd ".cache") =
        pathJoin hd ".cache" := by
    have h1 : is_absolute_path "relcache" = none := by decide
    simp [hcache, h1]
  have hcache1 : pathJoin hd ".cache" = ⟨hd.data ++ '/' :: ".cache".data⟩ :=
    pathJoin_not_absolute hd_ne hd_last (by decide)
  have hcache2 : pathJoin (pathJoin hd ".cache") "my-app" = hd ++ "/.cache/my-app" := by
    rw [hcache1]
    have h2 : (⟨hd.data ++ '/' :: ".cache".data⟩ : String).data ≠ [] := by simp
    have h3 : (⟨hd.data ++ '/' :: ".cache".data⟩ : String).data.getLast? ≠ some '/' := by
      show (hd.data ++ '/' :: ".cache".data).getLast? ≠ some '/'
      rw [List.getLast?_append]
      have h5 : ('/' :: ".cache".data).getLast? = some 'e' := by decide
      rw [h5]
      simp [Option.or]
    rw [pathJoin_not_absolute h2 h3 (by decide)]
    have h4 : (hd ++ "/.cache/my-app") = ⟨hd.data ++ "/.cache/my-app".data⟩ :=
      congrArg String.mk (String.data_append hd "/.cache/my-app")
    rw [h4]
    show (⟨(hd.data ++ '/' :: ".cache".data) ++ '/' :: "my-app".data⟩ : String) = _
    rw [List.append_assoc]
    rfl
  refine ⟨⟨"my-app",
      pathJoin ((e.xdg_cache_home.bind is_absolute_path).getD (pathJoin hd ".cache")) "my-app",
      pathJoin ((e.xdg_config_home.bind is_absolute_path).getD (pathJoin hd ".config")) "my-app",
      pathJoin ((e.xdg_data_home.bind is_absolute_path).getD (pathJoin hd ".local/share")) "my-app",
      pathJoin ((e.xdg_data_home.bind is_absolute_path).getD (pathJoin hd ".local/share")) "my-app",
      some (pathJoin r "my-app")⟩, ?_, ?_, ?_⟩
  · unfold from_project_name
    rw [hnorm]
    exact from_unprocessed_string_eq hhome hr "my-app"
  · show pathJoin ((e.xdg_config_home.bind is_absolute_path).getD (pathJoin hd ".config"))
      "my-app" = "/custom/config/my-app"
    rw [hcfgbase]
    decide
  · show pathJoin ((e.xdg_cache_home.bind is_absolute_path).getD (pathJoin hd ".cache"))
      "my-app" = hd ++ "/.cache/my-app"
    rw [hcbase, hcache2]

/-- Witness for C2: the scenario at the concrete home `/home/eve` and runtime
directory `/run/user/1000`. -/
theorem end_to_end_scenario_witness :
    ∃ pd, from_project_name
        ⟨some "relcache", some "/custom/config", none, none,
          some "/run/user/1000", some "/home/eve"⟩ "My App" = some pd ∧
      pd.project_config_dir = "/custom/config/my-app" ∧
      pd.project_cache_dir = "/home/eve" ++ "/.cache/my-app" :=
  end_to_end_scenario
    ⟨some "relcache", some "/custom/config", none, none,
      some "/run/user/1000", some "/home/eve"⟩
    "/home/eve" "/run/user/1000" rfl rfl rfl (by decide) (by decide) (by decide)

/-- C6: when `XDG_RUNTIME_DIR` is unset or not absolute, constructing a project
bundle fails fatally (the model returns `none`, the Rust code panics), while
the base resolver's runtime query returns the explicit absent answer `none` as
an ordinary value; when it is set and absolute, the bundle's runtime directory
is that path with the normalized project name appended. -/
theorem runtime_dir_asymmetry (e : Env) :
    (e.xdg_runtime_dir.bind is_absolute_path = none →
      (∀ name : String, from_project_name e name = none) ∧ runtime_dir e = none) ∧
    (∀ hd r : String, e.home = some hd →
      e.xdg_runtime_dir.bind is_absolute_path = some r →
      ∀ name : String, ∃ pd, from_project_name e name = some pd ∧
        pd.project_runtime_dir =
          some (pathJoin r (trim_and_replace_spaces_with_hyphens_then_lowercase name))) := by
  constructor
  · intro hrt
    constructor
    · intro name
      show from_unprocessed_string e _ = none
      unfold from_unprocessed_string
      cases hh : e.home with
      | none => rfl
      | some hd => rw [hrt]
    · exact hrt
  · intro hd r hh hr name
    exact ⟨_, from_unprocessed_string_eq hh hr _, rfl⟩

/-- Witness for C6: both halves at concrete environments. -/
theorem runtime_dir_asymmetry_witness :
    (from_project_name ⟨none, none, none, none, none, some "/home/eve"⟩ "app" = none ∧
      runtime_dir ⟨none, none, none, none, none, some "/home/eve"⟩ = none) ∧
    ∃ pd, from_project_name
        ⟨none, none, none, none, some "/run/user/1000", some "/home/eve"⟩ "My App" =
          some pd ∧
      pd.project_runtime_dir = some (pathJoin "/run/user/1000"
        (trim_and_replace_spaces_with_hyphens_then_lowercase "My App")) :=
  ⟨⟨((runtime_dir_asymmetry ⟨none, none, none, none, none, some "/home/eve"⟩).1 rfl).1
      "app",
    ((runtime_dir_asymmetry ⟨none, none, none, none, none, some "/home/eve"⟩).1 rfl).2⟩,
   (runtime_dir_asymmetry ⟨none, none, none, none, some "/run/user/1000",
      some "/home/eve"⟩).2 "/home/eve" "/run/user/1000" rfl (by decide) "My App"⟩

/-- C8: an empty or all-whitespace input normalizes to the empty project name,
and a bundle is still constructed (no input-validation failure): whenever the
environment lets the constructor get past its home and runtime `unwrap`s, the
bundle exists and carries the empty `project_name`. -/
theorem empty_name_still_constructs (s : String)
    (hws : ∀ c ∈ s.data, rustIsWhitespace c = true) :
    trim_and_replace_spaces_with_hyphens_then_lowercase s = "" ∧
    ∀ (e : Env) (hd r : String), e.home = some hd →
      e.xdg_runtime_dir.bind is_absolute_path = some r →
      ∃ pd, from_project_name e s = some pd ∧ pd.project_name = "" := by
  have hnorm : trim_and_replace_spaces_with_hyphens_then_lowercase s = "" := by
    show (⟨joinParts ((splitWhitespaceAux s.data []).map lowercaseChars)⟩ : String) = ""
    rw [splitWhitespaceAux_all_ws s.data hws]
    rfl
  refine ⟨hnorm, ?_⟩
  intro e hd r hh hr
  refine ⟨⟨"",
      pathJoin ((e.xdg_cache_home.bind is_absolute_path).getD (pathJoin hd ".cache")) "",
      pathJoin ((e.xdg_config_home.bind is_absolute_path).getD (pathJoin hd ".config")) "",
      pathJoin ((e.xdg_data_home.bind is_absolute_path).getD (pathJoin hd ".local/share")) "",
      pathJoin ((e.xdg_data_home.bind is_absolute_path).getD (pathJoin hd ".local/share")) "",
      some (pathJoin r "")⟩, ?_, rfl⟩
  unfold from_project_name
  rw [hnorm]
  exact from_unprocessed_string_eq hh hr ""

/-- Witness for C8: the all-whitespace input `"  "` in a concrete environment. -/
theorem empty_name_still_constructs_witness :
    trim_and_replace_spaces_with_hyphens_then_lowercase "  " = "" ∧
    ∃ pd, from_project_name
        ⟨none, none, none, none, some "/run/user/1000", some "/home/eve"⟩ "  " = some pd ∧
      pd.project_name = "" :=
  ⟨(empty_name_still_constructs "  " (by decide)).1,
   (empty_name_still_constructs "  " (by decide)).2
     ⟨none, none, none, none, some "/run/user/1000", some "/home/eve"⟩
     "/home/eve" "/run/user/1000" rfl (by decide)⟩

/-- C9: every query and bundle construction is a deterministic function of the
environment snapshot and provider responses: two calls with equal environments
(no intervening mutation) and equal helper outputs return equal results. -/
theorem resolution_deterministic (e₁ e₂ : Env) (v out₁ out₂ : String)
    (henv : e₁ = e₂) (hout : out₁ = out₂) :
    home_dir e₁ = home_dir e₂ ∧
    cache_dir e₁ = cache_dir e₂ ∧
    config_dir e₁ = config_dir e₂ ∧
    data_dir e₁ = data_dir e₂ ∧
    data_roaming_dir e₁ = data_roaming_dir e₂ ∧
    executable_dir e₁ = executable_dir e₂ ∧
    runtime_dir e₁ = runtime_dir e₂ ∧
    run_xdg_user_dir_command out₁ = run_xdg_user_dir_command out₂ ∧
    from_unprocessed_string e₁ v = from_unprocessed_string e₂ v ∧
    from_project_name e₁ v = from_project_name e₂ v ∧
    from_qualified_project_name e₁ v = from_qualified_project_name e₂ v := by
  subst henv
  subst hout
  exact ⟨rfl, rfl, rfl, rfl, rfl, rfl, rfl, rfl, rfl, rfl, rfl⟩

/-- Witness for C9: two identical calls at a concrete environment and output. -/
theorem resolution_deterministic_witness :
    cache_dir ⟨some "/c", none, none, none, none, some "/home/eve"⟩ =
      cache_dir ⟨some "/c", none, none, none, none, some "/home/eve"⟩ :=
  (resolution_deterministic ⟨some "/c", none, none, none, none, some "/home/eve"⟩
    ⟨some "/c", none, none, none, none, some "/home/eve"⟩ "app" "x" "x" rfl rfl).2.1

end DirectoriesRs
